import Mathlib

/-!
Verification of the JSON codec library in include/json_tools.h (namespace JT).

The development is a shallow embedding: buffers are lists of characters,
pointer/size pairs (DataRef) become start/size indices or extracted
character lists, and the hand-written resumable lexer loops become
fuel-indexed structural recursions (the fuel is always ample for the
concrete inputs evaluated here; the C++ loops terminate for the same
reason the fuel bounds suffice).
-/

namespace JT

/-- Token::Type from the source. -/
inductive TokenType where
  | Error
  | String
  | Ascii
  | Number
  | ObjectStart
  | ObjectEnd
  | ArrayStart
  | ArrayEnd
  | Bool
  | Null
deriving DecidableEq, Repr

/-- enum class Error from the source (UserDefinedErrors omitted: it is a
counter sentinel, never returned). -/
inductive JTError where
  | NoError
  | NeedMoreData
  | InvalidToken
  | ExpectedPropertyName
  | ExpectedDelimiter
  | ExpectedDataToken
  | ExpectedObjectStart
  | ExpectedObjectEnd
  | ExpectedArrayStart
  | ExpectedArrayEnd
  | IlligalPropertyName
  | IlligalPropertyType
  | IlligalDataValue
  | EncounteredIlligalChar
  | CouldNotCreateNode
  | NodeNotFound
  | MissingPropertyMember
  | FailedToParseBoolen
  | FailedToParseDouble
  | FailedToParseFloat
  | FailedToParseInt
  | UnassignedRequiredMember
  | UnknownError
deriving DecidableEq, Repr

/-- struct Token: name and value spans with their type tags.  DataRef spans
are modelled as the lists of bytes they denote.  The default constructor
sets both type tags to String and both spans empty. -/
structure Token where
  name_type : TokenType := .String
  name : List Char := []
  value_type : TokenType := .String
  value : List Char := []
deriving DecidableEq, Repr

/-- struct IntermediateToken: owns copied bytes of a token that spans
several input buffers. -/
structure IntermediateToken where
  active : Bool := false
  name_type_set : Bool := false
  data_type_set : Bool := false
  name_type : TokenType := .Error
  data_type : TokenType := .Error
  name : List Char := []
  data : List Char := []
deriving DecidableEq, Repr

/-- IntermediateToken::clear (early-outs when not active; the reset values
coincide with the defaults either way). -/
def IntermediateToken.clear (it : IntermediateToken) : IntermediateToken :=
  if ¬it.active then it
  else {}

/-- Tokenizer::InTokenState. -/
inductive InTokenState where
  | FindingName
  | FindingDelimiter
  | FindingData
  | FindingTokenEnd
deriving DecidableEq, Repr

/-- Tokenizer::InPropertyState. -/
inductive InPropertyState where
  | NoStartFound
  | FindingEnd
  | FoundEnd
deriving DecidableEq, Repr

/-- TypeChecker::type: reclassifies a completed Ascii bareword by exact
byte/length comparison against "null" / "true" / "false" (the "true" probe
sits inside the length-4 branch in the source, which is equivalent since
both literals have 4 bytes). -/
def typeCheckerType (t : TokenType) (data : List Char) : TokenType :=
  if t ≠ TokenType.Ascii then t
  else if data.length = 4 then
    (if data = ['n', 'u', 'l', 'l'] then TokenType.Null
     else if data = ['t', 'r', 'u', 'e'] then TokenType.Bool
     else TokenType.Ascii)
  else if data.length = 5 ∧ data = ['f', 'a', 'l', 's', 'e'] then TokenType.Bool
  else TokenType.Ascii

/-- The tokenizer state.  The byte buffers registered through addData are
kept as a queue of character lists.  need-more-data and release callbacks
are not modelled: data is supplied by calling addData between nextToken
calls, which matches the behaviour of a tokenizer with no registered
callbacks (requestMoreData is then a no-op). -/
structure Tokenizer where
  data_list : List (List Char) := []
  cursor_index : Nat := 0
  current_data_start : Nat := 0
  token_state : InTokenState := .FindingName
  property_state : InPropertyState := .NoStartFound
  property_type : TokenType := .Error
  is_escaped : Bool := false
  allow_ascii_properties : Bool := false
  allow_new_lines : Bool := false
  allow_superfluous_comma : Bool := false
  expecting_prop_or_annonymous_data : Bool := false
  continue_after_need_more_data : Bool := false
  intermediate_token : IntermediateToken := {}
  token_transformer : Option (Token → Token) := none

/-- Tokenizer::addData. -/
def addData (st : Tokenizer) (data : List Char) : Tokenizer :=
  { st with data_list := st.data_list ++ [data] }

/-- Tokenizer::allowSuperfluousComma. -/
def allowSuperfluousComma (st : Tokenizer) (allow : Bool) : Tokenizer :=
  { st with allow_superfluous_comma := allow }

/-- Tokenizer::allowAsciiType. -/
def allowAsciiType (st : Tokenizer) (allow : Bool) : Tokenizer :=
  { st with allow_ascii_properties := allow }

/-- Tokenizer::registerTokenTransformer.  The body in the source is
`token_transformer = token_transformer;` — the parameter shadows the
member of the same name, so this is a self-assignment of the parameter
and the member is left untouched.  The faithful model therefore returns
the state unchanged. -/
def registerTokenTransformer (st : Tokenizer) (_token_transformer : Token → Token) : Tokenizer :=
  st

/-- Tokenizer::resetForNewValue. -/
def resetForNewValue (st : Tokenizer) : Tokenizer :=
  { st with property_state := .NoStartFound
          , property_type := .Error
          , current_data_start := 0 }

/-- Tokenizer::resetForNewToken. -/
def resetForNewToken (st : Tokenizer) : Tokenizer :=
  resetForNewValue { st with intermediate_token := st.intermediate_token.clear }

/-- Tokenizer::releaseFirstDataRef (the release callbacks are notifications
only and are not modelled). -/
def releaseFirstDataRef (st : Tokenizer) : Tokenizer :=
  { st with data_list := st.data_list.tail
          , cursor_index := 0
          , current_data_start := 0 }

/-- Scan loop of Tokenizer::findStringEnd over the bytes from the cursor on;
returns (error, chars_ahead, updated is_escaped). -/
def findStringEndAux : List Char → Bool → Nat → JTError × Nat × Bool
  | [], esc, consumed => (.NeedMoreData, consumed, esc)
  | c :: rest, esc, consumed =>
    if esc then findStringEndAux rest false (consumed + 1)
    else if c = '\\' then findStringEndAux rest true (consumed + 1)
    else if c = '"' then (.NoError, consumed + 1, esc)
    else findStringEndAux rest esc (consumed + 1)

/-- Character class of Tokenizer::findAsciiEnd: A-Z, the byte range from
caret to lowercase z, and digits. -/
def isAsciiBodyChar (c : Char) : Bool :=
  ('A'.toNat ≤ c.toNat && c.toNat ≤ 'Z'.toNat) ||
  ('^'.toNat ≤ c.toNat && c.toNat ≤ 'z'.toNat) ||
  ('0'.toNat ≤ c.toNat && c.toNat ≤ '9'.toNat)

/-- Scan loop of Tokenizer::findAsciiEnd; a NUL byte is treated as a
buffer-end sentinel (NeedMoreData). -/
def findAsciiEndAux : List Char → Nat → JTError × Nat
  | [], consumed => (.NeedMoreData, consumed)
  | c :: rest, consumed =>
    if isAsciiBodyChar c then findAsciiEndAux rest (consumed + 1)
    else if c = '\x00' then (.NeedMoreData, consumed)
    else (.NoError, consumed)

/-- Character class of Tokenizer::findNumberEnd. -/
def isNumberChar (c : Char) : Bool :=
  ('0'.toNat ≤ c.toNat && c.toNat ≤ '9'.toNat) ||
  c = '.' || c = '+' || c = '-' || c = 'e' || c = 'E'

/-- Scan loop of Tokenizer::findNumberEnd. -/
def findNumberEndAux : List Char → Nat → JTError × Nat
  | [], consumed => (.NeedMoreData, consumed)
  | c :: rest, consumed =>
    if isNumberChar c then findNumberEndAux rest (consumed + 1)
    else (.NoError, consumed)

/-- Whitespace skipped by the scan loops: space, newline, tab and NUL. -/
def isSkippedChar (c : Char) : Bool :=
  c = ' ' || c = '\n' || c = '\t' || c = '\x00'

/-- First byte of a Number token. -/
def isNumberStartChar (c : Char) : Bool :=
  c = '-' || c = '+' || ('0'.toNat ≤ c.toNat && c.toNat ≤ '9'.toNat)

/-- First byte of an Ascii bareword (A-Z or the caret..z byte range). -/
def isAsciiStartChar (c : Char) : Bool :=
  ('A'.toNat ≤ c.toNat && c.toNat ≤ 'Z'.toNat) ||
  ('^'.toNat ≤ c.toNat && c.toNat ≤ 'z'.toNat)

/-- Scan loop of Tokenizer::findStartOfNextValue; returns
(error, classified type, chars_ahead).  On error the caller overwrites the
type with Token::Error, so the type returned on error is immaterial. -/
def findStartOfNextValueAux : List Char → Nat → JTError × TokenType × Nat
  | [], consumed => (.NeedMoreData, .Error, consumed)
  | c :: rest, consumed =>
    if isSkippedChar c then findStartOfNextValueAux rest (consumed + 1)
    else if c = '"' then (.NoError, .String, consumed + 1)
    else if c = '{' then (.NoError, .ObjectStart, consumed)
    else if c = '}' then (.NoError, .ObjectEnd, consumed)
    else if c = '[' then (.NoError, .ArrayStart, consumed)
    else if c = ']' then (.NoError, .ArrayEnd, consumed)
    else if isNumberStartChar c then (.NoError, .Number, consumed)
    else if isAsciiStartChar c then (.NoError, .Ascii, consumed)
    else (.EncounteredIlligalChar, .Error, consumed)

/-- Scan loop of Tokenizer::findDelimiter; returns
(error, new token_state when successful, chars_ahead). -/
def findDelimiterAux : List Char → Nat → JTError × Option InTokenState × Nat
  | [], consumed => (.NeedMoreData, none, consumed)
  | c :: rest, consumed =>
    if c = ':' then (.NoError, some .FindingData, consumed + 1)
    else if c = ',' then (.NoError, some .FindingName, consumed + 1)
    else if c = ']' then (.NoError, some .FindingName, consumed)
    else if isSkippedChar c then findDelimiterAux rest (consumed + 1)
    else (.ExpectedDelimiter, none, consumed)

/-- Scan loop of Tokenizer::findTokenEnd; returns
(error, whether expecting_prop_or_annonymous_data is to be set, chars_ahead).
A newline not enabled as delimiter is skipped like whitespace. -/
def findTokenEndAux (allow_new_lines : Bool) : List Char → Nat → JTError × Bool × Nat
  | [], consumed => (.NeedMoreData, false, consumed)
  | c :: rest, consumed =>
    if c = ',' then (.NoError, true, consumed + 1)
    else if c = '\n' then
      if allow_new_lines then (.NoError, false, consumed + 1)
      else findTokenEndAux allow_new_lines rest (consumed + 1)
    else if c = ']' || c = '}' then (.NoError, false, consumed)
    else if c = ' ' || c = '\t' || c = '\x00' then
      findTokenEndAux allow_new_lines rest (consumed + 1)
    else (.InvalidToken, false, consumed + 1)

/-- strnlen over a character list: bytes before the first NUL, capped. -/
def strnlen (l : List Char) (maxlen : Nat) : Nat :=
  ((l.take maxlen).takeWhile (fun c => c ≠ '\x00')).length

/-- The span of `size` bytes at offset `start` of a buffer. -/
def spanOf (json : List Char) (start size : Nat) : List Char :=
  (json.drop start).take size

/-- Result of Tokenizer::populateFromDataRef: error, the out-parameter span
(start offset into the buffer and size) and type, and the updated state. -/
structure PopRes where
  err : JTError
  dstart : Nat
  dsize : Nat
  ty : TokenType
  st : Tokenizer

/-- t is one of the four single-byte container tokens. -/
def isContainerType (t : TokenType) : Bool :=
  t = .ObjectStart || t = .ObjectEnd || t = .ArrayStart || t = .ArrayEnd

/-- Second phase of Tokenizer::populateFromDataRef (the
`property_state == FindingEnd` block): scan for the type-specific end of
the value.  `dstart` is where the out-parameter data span begins. -/
def popFindEnd (ty : TokenType) (json : List Char) (dstart : Nat) (st : Tokenizer) : PopRes :=
  match ty with
  | .String =>
    let r := findStringEndAux (json.drop st.cursor_index) st.is_escaped 0
    let st := { st with is_escaped := r.2.2 }
    if r.1 ≠ .NoError then { err := r.1, dstart := dstart, dsize := 0, ty := ty, st := st }
    else
      let cur := st.cursor_index + r.2.1
      { err := .NoError, dstart := dstart
      , dsize := cur - st.current_data_start - 1, ty := ty
      , st := { st with cursor_index := cur, property_state := .FoundEnd } }
  | .Ascii =>
    let r := findAsciiEndAux (json.drop st.cursor_index) 0
    if r.1 ≠ .NoError then { err := r.1, dstart := dstart, dsize := 0, ty := ty, st := st }
    else
      let cur := st.cursor_index + r.2
      { err := .NoError, dstart := dstart
      , dsize := cur - st.current_data_start, ty := ty
      , st := { st with cursor_index := cur, property_state := .FoundEnd } }
  | .Number =>
    let r := findNumberEndAux (json.drop st.cursor_index) 0
    if r.1 ≠ .NoError then { err := r.1, dstart := dstart, dsize := 0, ty := ty, st := st }
    else
      let cur := st.cursor_index + r.2
      { err := .NoError, dstart := dstart
      , dsize := cur - st.current_data_start, ty := ty
      , st := { st with cursor_index := cur, property_state := .FoundEnd } }
  | _ => { err := .InvalidToken, dstart := dstart, dsize := 0, ty := ty, st := st }

/-- Tokenizer::populateFromDataRef.  `ty0` is the in/out type argument
(the intermediate token's saved type on resumption). -/
def populateFromDataRef (ty0 : TokenType) (json : List Char) (st : Tokenizer) : PopRes :=
  if st.property_state = .NoStartFound then
    let r := findStartOfNextValueAux (json.drop st.cursor_index) 0
    if r.1 ≠ .NoError then
      { err := r.1, dstart := st.cursor_index, dsize := 0, ty := .Error, st := st }
    else
      let ty := r.2.1
      let diff := r.2.2
      let dstart := st.cursor_index + diff
      let st := { st with current_data_start := st.cursor_index + diff
                        , cursor_index := st.cursor_index + diff + 1
                        , property_type := ty }
      if isContainerType ty then
        { err := .NoError, dstart := dstart, dsize := 1, ty := ty
        , st := { st with property_state := .FoundEnd } }
      else
        popFindEnd ty json dstart { st with property_state := .FindingEnd }
  else if st.property_state = .FindingEnd then
    popFindEnd ty0 json st.cursor_index st
  else
    { err := .NoError, dstart := st.cursor_index, dsize := 0, ty := ty0, st := st }

/-- Tokenizer::populate_annonymous_token. -/
def populate_annonymous_token (data : List Char) (ty : TokenType) (token : Token) : Token :=
  { token with name := [], name_type := .Ascii, value := data, value_type := ty }

/-- The body of the FindingName NeedMoreData branch in
populateNextTokenFromDataRef: activate the intermediate token and append
the partial name bytes (up to the first NUL, as strnlen does). -/
def saveIntermediateName (json : List Char) (r : PopRes) (st : Tokenizer) : Tokenizer :=
  if st.property_state ≠ .NoStartFound then
    let to_null := strnlen (json.drop r.dstart) (json.length - st.current_data_start)
    let it := st.intermediate_token
    let it := { it with active := true
                      , name := it.name ++ (json.drop r.dstart).take to_null }
    let it := if ¬it.name_type_set then { it with name_type := r.ty, name_type_set := true }
              else it
    { st with intermediate_token := it }
  else st

/-- Save a pending name from the local tmp_token into the intermediate
token (the NeedMoreData branches of the FindingDelimiter and FindingData
states).  Only the name and its type are recorded; name_type_set is not
touched, exactly as in the source. -/
def saveTmpName (tmp : Token) (st : Tokenizer) : Tokenizer :=
  if ¬st.intermediate_token.active then
    { st with intermediate_token :=
        { st.intermediate_token with
            active := true
          , name := st.intermediate_token.name ++ tmp.name
          , name_type := tmp.name_type } }
  else st

/-- The while loop of Tokenizer::populateNextTokenFromDataRef.  `tmp` is
the local tmp_token, freshly default-constructed once per call of the
surrounding function; `next_token` is the caller's out-parameter token,
returned updated only where the source writes to it.  The fuel counts loop
iterations; the surrounding function passes more than the loop can use. -/
def populateLoop : Nat → List Char → Token → Token → Tokenizer → JTError × Token × Tokenizer
  | 0, _, _, next_token, st => (.UnknownError, next_token, st)
  | fuel + 1, json, tmp, next_token, st =>
    if st.cursor_index < json.length then
      match st.token_state with
      | .FindingName =>
        let r := populateFromDataRef st.intermediate_token.name_type json st
        if r.err = .NeedMoreData then
          (.NeedMoreData, next_token, saveIntermediateName json r r.st)
        else if r.err ≠ .NoError then (r.err, next_token, r.st)
        else
          let st := r.st
          let data0 := spanOf json r.dstart r.dsize
          let (st, data, ty) :=
            if st.intermediate_token.active then
              let it := { st.intermediate_token with
                            name := st.intermediate_token.name ++ data0 }
              ({ st with intermediate_token := it }, it.name, it.name_type)
            else (st, data0, r.ty)
          if ty = .ObjectEnd || ty = .ArrayEnd then
            if st.expecting_prop_or_annonymous_data && ¬st.allow_superfluous_comma then
              (.ExpectedDataToken, next_token, st)
            else
              (.NoError, populate_annonymous_token data ty next_token,
               { st with token_state := .FindingTokenEnd })
          else if ty = .ObjectStart || ty = .ArrayStart then
            (.NoError, populate_annonymous_token data ty next_token,
             { st with token_state := .FindingName
                     , expecting_prop_or_annonymous_data := false })
          else
            let tmp := { tmp with name := data, name_type := typeCheckerType ty data }
            populateLoop fuel json tmp next_token
              (resetForNewValue { st with token_state := .FindingDelimiter })
      | .FindingDelimiter =>
        let r := findDelimiterAux (json.drop st.cursor_index) 0
        if r.1 ≠ .NoError then
          (r.1, next_token, saveTmpName tmp st)
        else
          let st := { st with cursor_index := st.cursor_index + r.2.2
                            , token_state := r.2.1.getD st.token_state }
          let st := resetForNewValue st
          let st := { st with expecting_prop_or_annonymous_data := false }
          if st.token_state = .FindingName then
            (.NoError, populate_annonymous_token tmp.name tmp.name_type next_token, st)
          else
            if tmp.name_type ≠ .String &&
               (¬st.allow_ascii_properties || tmp.name_type ≠ .Ascii) then
              (.IlligalPropertyName, next_token, st)
            else
              populateLoop fuel json tmp next_token st
      | .FindingData =>
        let r := populateFromDataRef st.intermediate_token.data_type json st
        if r.err = .NeedMoreData then
          let st := saveTmpName tmp r.st
          let st :=
            if st.property_state ≠ .NoStartFound then
              let data_length := strnlen (json.drop r.dstart) (json.length - st.current_data_start)
              let it0 := { st.intermediate_token with
                             data := st.intermediate_token.data ++
                                     (json.drop r.dstart).take data_length }
              let it := if it0.data_type_set then it0
                        else { it0 with data_type := r.ty, data_type_set := true }
              { st with intermediate_token := it }
            else st
          (.NeedMoreData, next_token, st)
        else if r.err ≠ .NoError then (r.err, next_token, r.st)
        else
          let st := r.st
          let data0 := spanOf json r.dstart r.dsize
          let (st, tmp, data, ty) :=
            if st.intermediate_token.active then
              let it0 := { st.intermediate_token with
                             data := st.intermediate_token.data ++ data0 }
              let it := if it0.data_type_set then it0
                        else { it0 with data_type := r.ty, data_type_set := true }
              ({ st with intermediate_token := it },
               { tmp with name := it.name, name_type := it.name_type },
               it.data, it.data_type)
            else (st, tmp, data0, r.ty)
          let tmp := { tmp with value := data, value_type := typeCheckerType ty data }
          if tmp.value_type = .Ascii && ¬st.allow_ascii_properties then
            (.IlligalDataValue, next_token, st)
          else
            let st := if ty = .ObjectStart || ty = .ArrayStart then
                        { st with token_state := .FindingName }
                      else { st with token_state := .FindingTokenEnd }
            (.NoError, tmp, st)
      | .FindingTokenEnd =>
        let r := findTokenEndAux st.allow_new_lines (json.drop st.cursor_index) 0
        if r.1 ≠ .NoError then (r.1, next_token, st)
        else
          let st := { st with cursor_index := st.cursor_index + r.2.2
                            , token_state := .FindingName
                            , expecting_prop_or_annonymous_data :=
                                st.expecting_prop_or_annonymous_data || r.2.1 }
          populateLoop fuel json tmp next_token st
    else (.NeedMoreData, next_token, st)

/-- Tokenizer::populateNextTokenFromDataRef: runs the loop with a freshly
default-constructed tmp_token.  The fuel exceeds any possible number of
loop iterations (each iteration advances the cursor or is one of a bounded
number of state hand-offs between advances). -/
def populateNextTokenFromDataRef (json : List Char) (next_token : Token) (st : Tokenizer) :
    JTError × Token × Tokenizer :=
  populateLoop (4 * json.length + 16) json {} next_token st

/-- The retry loop of Tokenizer::nextToken: consume buffers from the front
of the queue while the populate step reports NeedMoreData (requestMoreData
is a no-op without callbacks).  The fuel is the queue length plus one. -/
def nextTokenLoop : Nat → Token → Tokenizer → JTError × Token × Tokenizer
  | 0, tok, st => (.NeedMoreData, tok, st)
  | fuel + 1, tok, st =>
    match st.data_list with
    | [] => (.NeedMoreData, tok, st)
    | json :: _ =>
      let r := populateNextTokenFromDataRef json tok st
      if r.1 = .NoError then r
      else
        let st := releaseFirstDataRef r.2.2
        if r.1 = .NeedMoreData then nextTokenLoop fuel r.2.1 st
        else (r.1, r.2.1, st)

/-- Tokenizer::nextToken.  With no registered need-more-data callbacks an
empty queue returns NeedMoreData immediately (state untouched, exactly as
the early return in the source).  On success the registered token
transformer — never set through the public API, see
registerTokenTransformer — would rewrite the token. -/
def nextToken (st : Tokenizer) (tok : Token) : JTError × Token × Tokenizer :=
  if st.data_list.isEmpty then (.NeedMoreData, tok, st)
  else
    let st := if ¬st.continue_after_need_more_data then resetForNewToken st else st
    let r := nextTokenLoop (st.data_list.length + 1) tok st
    let st := { r.2.2 with continue_after_need_more_data := r.1 = .NeedMoreData }
    let tok := if r.1 = .NoError then
                 match st.token_transformer with
                 | some f => f r.2.1
                 | none => r.2.1
               else r.2.1
    (r.1, tok, st)

/-- Drive a tokenizer over a document supplied as successive buffers:
call nextToken repeatedly, adding the next pending buffer whenever
NeedMoreData is reported, and collect the tokens produced.  Stops when the
pending buffers are exhausted and the tokenizer still needs data
(document consumed) or on a terminal error. -/
def driveTokenizer : Nat → Tokenizer → List (List Char) → List Token → List Token × JTError
  | 0, _, _, acc => (acc.reverse, .UnknownError)
  | fuel + 1, st, pending, acc =>
    let r := nextToken st {}
    if r.1 = .NoError then driveTokenizer fuel r.2.2 pending (r.2.1 :: acc)
    else if r.1 = .NeedMoreData then
      match pending with
      | [] => (acc.reverse, .NeedMoreData)
      | b :: rest => driveTokenizer fuel (addData r.2.2 b) rest acc
    else (acc.reverse, r.1)

/-- Tokenize a document split into the given chunks, feeding each chunk
through addData when the previous ones are exhausted; returns the token
sequence and the final (NeedMoreData or terminal) error. -/
def tokenizeChunks (st0 : Tokenizer) (chunks : List (List Char)) : List Token × JTError :=
  match chunks with
  | [] => ([], .NeedMoreData)
  | b :: rest =>
    driveTokenizer ((chunks.map List.length).sum + chunks.length + 8)
      (addData st0 b) rest []

/-! ## Serializer -/

/-- SerializerOptions::Style. -/
inductive SerializerStyle where
  | Pretty
  | Compact
deriving DecidableEq, Repr

/-- class SerializerOptions.  The prefix, token-delimiter, value-delimiter
and postfix strings carry the suffix _str here because of their member
roles in the source (m_prefix and friends). -/
structure SerializerOptions where
  m_shift_size : Int := 4
  m_depth : Int := 0
  m_style : SerializerStyle
  m_convert_ascii_to_string : Bool := true
  m_prefix_str : List Char := []
  m_token_delimiter : List Char := [',']
  m_value_delimiter : List Char
  m_postfix_str : List Char
deriving DecidableEq, Repr

/-- SerializerOptions::SerializerOptions(Style): shift size 4, depth 0,
convertAsciiToString on, delimiter strings depending on the style; the
prefix string stays default-constructed (empty). -/
def mkSerializerOptions (style : SerializerStyle) : SerializerOptions :=
  { m_style := style
  , m_value_delimiter := if style = .Pretty then [' ', ':', ' '] else [':']
  , m_postfix_str := if style = .Pretty then ['\n'] else [] }

/-- SerializerOptions::setDepth: records the depth and rebuilds the indent
prefix (depth * shift spaces in Pretty style, empty in Compact).  The
source computes std::string(depth * m_shift_size, ' ') with the product
converted to size_t; the depth never goes negative in the runs modelled
here, where toNat agrees with that conversion. -/
def setDepth (o : SerializerOptions) (depth : Int) : SerializerOptions :=
  { o with m_depth := depth
         , m_prefix_str := if o.m_style = .Pretty
                           then List.replicate (depth * o.m_shift_size).toNat ' '
                           else [] }

/-- class SerializerBuffer: caller-owned memory of `size` bytes, of which
the first `used` are filled.  The byte contents are carried as a list of
length `size`. -/
structure SerializerBuffer where
  buffer : List Char
  size : Nat
  used : Nat
deriving DecidableEq, Repr

/-- SerializerBuffer::free — the source declares the return type bool, so
the byte count size - used collapses to a flag (used below to write one
byte per loop iteration).  In Nat, size - used ≠ 0 means used < size; the
out-of-invariant case used > size (where the C size_t subtraction would
wrap) never arises under the used ≤ size invariant. -/
def SerializerBuffer.free (b : SerializerBuffer) : Bool :=
  b.size - b.used ≠ 0

/-- SerializerBuffer::append: bounds check, then memcpy at offset used. -/
def SerializerBuffer.append (b : SerializerBuffer) (data : List Char) : Bool × SerializerBuffer :=
  if b.used + data.length > b.size then (false, b)
  else (true,
        { b with buffer := b.buffer.take b.used ++ data ++
                           b.buffer.drop (b.used + data.length)
               , used := b.used + data.length })

/-- class Serializer.  m_unused_buffers holds indices into m_all_buffers
(the source stores pointers into that vector).  Request-buffer callbacks
are not modelled: askForMoreBuffers with no registered callbacks does
nothing, and the serializers evaluated here are given ample buffers up
front. -/
structure Serializer where
  m_all_buffers : List SerializerBuffer := []
  m_unused_buffers : List Nat := []
  m_option : SerializerOptions := mkSerializerOptions .Pretty
  m_first : Bool := true
  m_token_start : Bool := true
  m_token_transformer : Option (Token → Token) := none

/-- Serializer::appendBuffer with a fresh caller buffer of the given
capacity (the bytes of caller memory are uninitialized; they are modelled
as spaces and never observed before being overwritten). -/
def Serializer.appendBuffer (s : Serializer) (capacity : Nat) : Serializer :=
  { s with m_all_buffers := s.m_all_buffers ++
             [{ buffer := List.replicate capacity ' ', size := capacity, used := 0 }]
         , m_unused_buffers := s.m_unused_buffers ++ [s.m_all_buffers.length] }

/-- The while loop of Serializer::write(const char*, size_t): write into
the front unused buffer, retiring it when full.  Because free() returns
bool, at most one byte is appended per iteration.  Returns the total bytes
written and the updated serializer. -/
def writeRawLoop : Nat → Serializer → List Char → Nat → Nat → Nat × Serializer
  | 0, s, _, _, written => (written, s)
  | fuel + 1, s, data, size, written =>
    match s.m_unused_buffers with
    | [] => (written, s)
    | idx :: restUnused =>
      if written < size then
        match s.m_all_buffers.get? idx with
        | none => (written, s)
        | some b =>
          if ¬b.free then
            writeRawLoop fuel { s with m_unused_buffers := restUnused } data size written
          else
            let to_write := min size 1
            let r := b.append ((data.drop written).take to_write)
            writeRawLoop fuel { s with m_all_buffers := s.m_all_buffers.set idx r.2 }
              data size (written + to_write)
      else (written, s)

/-- Serializer::write(const char*, size_t). -/
def Serializer.writeRaw (s : Serializer) (data : List Char) : Bool × Serializer :=
  if data.length = 0 then (true, s)
  else
    let r := writeRawLoop (data.length + s.m_unused_buffers.length + 1) s data data.length 0
    (r.1 = data.length, r.2)

/-- Serializer::writeAsString: the quoting decision reads only the first
byte of the span (*data.data).  An empty span would read the byte past the
span in the source; the model substitutes a NUL there and the theorems
below only cover nonempty spans, where the model is exact. -/
def Serializer.writeAsString (s : Serializer) (data : List Char) : Bool × Serializer :=
  let c0 := data.headD '\x00'
  if c0 ≠ '"' then
    let r1 := s.writeRaw ['"']
    if ¬r1.1 then (false, r1.2)
    else
      let r2 := r1.2.writeRaw data
      if ¬r2.1 then (false, r2.2)
      else r2.2.writeRaw ['"']
  else
    let r2 := s.writeRaw data
    if ¬r2.1 then (false, r2.2)
    else (true, r2.2)

/-- Serializer::write(Token::Type, const DataRef &). -/
def Serializer.writeTyped (s : Serializer) (ty : TokenType) (data : List Char) : Bool × Serializer :=
  match ty with
  | .String => s.writeAsString data
  | .Ascii => if s.m_option.m_convert_ascii_to_string then s.writeAsString data
              else s.writeRaw data
  | _ => s.writeRaw data

/-- Serializer::write(const Token &): delimiter and newline bookkeeping,
depth tracking around container tokens, then name and value encoding. -/
def Serializer.writeToken (s : Serializer) (in_token : Token) : Bool × Serializer :=
  let token := match s.m_token_transformer with
               | none => in_token
               | some f => f in_token
  let r1 : Bool × Serializer :=
    if ¬s.m_token_start then
      if token.value_type ≠ .ObjectEnd && token.value_type ≠ .ArrayEnd then
        s.writeRaw s.m_option.m_token_delimiter
      else (true, s)
    else (true, s)
  if ¬r1.1 then (false, r1.2)
  else
    let s := r1.2
    let r2 : Bool × Serializer :=
      if s.m_first then (true, { s with m_first := false })
      else s.writeRaw s.m_option.m_postfix_str
    if ¬r2.1 then (false, r2.2)
    else
      let s := r2.2
      let s := if token.value_type = .ObjectEnd || token.value_type = .ArrayEnd then
                 { s with m_option := setDepth s.m_option (s.m_option.m_depth - 1) }
               else s
      let r3 := s.writeRaw s.m_option.m_prefix_str
      if ¬r3.1 then (false, r3.2)
      else
        let s := r3.2
        let r4 : Bool × Serializer :=
          if token.name.length ≠ 0 then
            let rn := s.writeTyped token.name_type token.name
            if ¬rn.1 then (false, rn.2)
            else rn.2.writeRaw s.m_option.m_value_delimiter
          else (true, s)
        if ¬r4.1 then (false, r4.2)
        else
          let s := r4.2
          let r5 := s.writeTyped token.value_type token.value
          if ¬r5.1 then (false, r5.2)
          else
            let s := r5.2
            let token_start := token.value_type = .ObjectStart ||
                               token.value_type = .ArrayStart
            let s := { s with m_token_start := token_start }
            let s := if token_start then
                       { s with m_option := setDepth s.m_option (s.m_option.m_depth + 1) }
                     else s
            (true, s)

/-- Write a sequence of tokens, stopping at the first failure. -/
def writeTokens (s : Serializer) : List Token → Bool × Serializer
  | [] => (true, s)
  | t :: ts =>
    let r := s.writeToken t
    if r.1 then writeTokens r.2 ts else (false, r.2)

/-- The bytes the serializer has produced: concatenation of the used
portions of all its buffers. -/
def serializedBytes (s : Serializer) : List Char :=
  (s.m_all_buffers.map (fun b => b.buffer.take b.used)).flatten

/-- A serializer of the given style over a single fresh output buffer. -/
def serializerWithBuffer (style : SerializerStyle) (capacity : Nat) : Serializer :=
  Serializer.appendBuffer { m_option := mkSerializerOptions style } capacity

/-! ## Codec layer: scalar token parsers -/

/-- Digit-accumulation loop of strtol (base 10): value so far and digits
consumed. -/
def strtolDigits : List Char → Int → Nat → Int × Nat
  | [], acc, n => (acc, n)
  | c :: rest, acc, n =>
    if '0'.toNat ≤ c.toNat && c.toNat ≤ '9'.toNat then
      strtolDigits rest (acc * 10 + (c.toNat - '0'.toNat : Nat)) (n + 1)
    else (acc, n)

/-- strtol(data, &endp, 10) over the bytes readable at the token value:
skip C locale whitespace, read an optional sign, then digits.  Returns the
parsed value and the number of bytes consumed (0 means endp == data, i.e.
no conversion).  Out-of-range clamping to LONG_MIN/LONG_MAX is not
modelled; all values arising here are far in range. -/
def strtol10 (l : List Char) : Int × Nat :=
  let ws := l.takeWhile (fun c => c = ' ' || c = '\t' || c = '\n' ||
                                  c = '\x0b' || c = '\x0c' || c = '\x0d')
  let l1 := l.drop ws.length
  match l1 with
  | '-' :: rest =>
    let r := strtolDigits rest 0 0
    if r.2 = 0 then (0, 0) else (-r.1, ws.length + 1 + r.2)
  | '+' :: rest =>
    let r := strtolDigits rest 0 0
    if r.2 = 0 then (0, 0) else (r.1, ws.length + 1 + r.2)
  | _ =>
    let r := strtolDigits l1 0 0
    if r.2 = 0 then (0, 0) else (r.1, ws.length + r.2)

/-- TokenParser&lt;int,int&gt;::unpackToken: to_type is assigned the strtol
result unconditionally; FailedToParseInt is returned when strtol consumed
nothing.  The argument is the byte sequence readable at the token value
(strtol stops at the first non-digit, which for the inputs used here lies
within the given bytes). -/
def intUnpackToken (value : List Char) : JTError × Int :=
  let r := strtol10 value
  (if r.2 = 0 then .FailedToParseInt else .NoError, r.1)

/-- The %d rendering snprintf would produce for a C int value. -/
def intFormat (d : Int) : List Char :=
  (toString d).toList

/-- TokenParser&lt;int,int&gt;::serializeToken writes through
snprintf(buf, 10, "%d", d) with char buf[10]: at most 9 characters plus a
terminating NUL are stored, but snprintf returns the untruncated length,
which becomes token.value.size.  The result is the pair of the bytes
stored in the buffer and that reported size; the token's value span is the
first `size` bytes of the buffer (for INT_MAX: 9 digits plus the NUL). -/
def intSerializeTokenValue (d : Int) : List Char × Nat :=
  let s := intFormat d
  if s.length + 1 ≤ 10 then (s ++ ['\x00'], s.length)
  else (s.take 9 ++ ['\x00'], s.length)

/-- TokenParser&lt;bool,bool&gt;::unpackToken: memcmp("true", data, 4), then
memcmp("false", data, 5) — the comparisons read a fixed number of bytes
from the start of the value span and ignore the token's size.  (For spans
shorter than the compared literal the source reads past the span; the
theorems below only instantiate values of length at least 5, where the
model is exact.)  Returns the error and the resulting to_type, which keeps
its old value when parsing fails. -/
def boolUnpackToken (value : List Char) (to_type : Bool) : JTError × Bool :=
  if value.take 4 = ['t', 'r', 'u', 'e'] then (.NoError, true)
  else if value.take 5 = ['f', 'a', 'l', 's', 'e'] then (.NoError, false)
  else (.FailedToParseBoolen, to_type)

/-! ## Codec layer: composite (object) decode -/

/-- ParseContext (the parts the composite decode reads and writes). -/
structure ParseContext where
  tokenizer : Tokenizer := {}
  token : Token := {}
  error : JTError := .NoError
  missing_members : List (List Char) := []
  unassigned_required_members : List (List Char) := []
  allow_missing_members : Bool := true
  allow_unnasigned_required__members : Bool := true

/-- A member descriptor as the verify phase sees it: the registered name
and whether the member's type is optional-shaped
(HasJTOptionalValue&lt;MI_T&gt;::value). -/
structure MemberDesc where
  name : List Char
  isOptional : Bool
deriving DecidableEq, Repr

/-- verifyMember: an assigned or optional-shaped member verifies silently;
an unassigned required member pushes its name and reports
UnassignedRequiredMember. -/
def verifyMember (d : MemberDesc) (assigned : Bool) (missing : List (List Char)) :
    JTError × List (List Char) :=
  if assigned then (.NoError, missing)
  else if d.isOptional then (.NoError, missing)
  else (.UnassignedRequiredMember, missing ++ [d.name])

/-- MemberChecker&lt;T, Members, INDEX&gt;::verifyMembers walks the descriptor
tuple from the last index down to 0, keeping the first non-NoError member
result; every unassigned required name is pushed.  The argument list here
is the (descriptor, assigned-flag) pairs in that processing order, i.e.
the declaration order reversed. -/
def verifyMembersRev : List (MemberDesc × Bool) → List (List Char) →
    JTError × List (List Char)
  | [], missing => (.NoError, missing)
  | (d, a) :: rest, missing =>
    let r1 := verifyMember d a missing
    let r2 := verifyMembersRev rest r1.2
    (if r1.1 ≠ .NoError then r1.1 else r2.1, r2.2)

/-- The tail of TokenParser&lt;T (json-struct)&gt;::unpackToken after the
member loop reached ObjectEnd: run verifyMembers into a local list; on
UnassignedRequiredMember append that list to the context and downgrade the
error to NoError exactly when unassigned required members are allowed. -/
def finishObjectVerify (members : List MemberDesc) (assigned : List Bool)
    (ctx : ParseContext) : JTError × ParseContext :=
  let r := verifyMembersRev ((members.zip assigned).reverse) []
  if r.1 = .UnassignedRequiredMember then
    let ctx := { ctx with unassigned_required_members :=
                   ctx.unassigned_required_members ++ r.2 }
    (if ctx.allow_unnasigned_required__members then .NoError
     else .UnassignedRequiredMember, ctx)
  else (r.1, ctx)

/-- The name comparison of unpackMember:
memcmp(memberInfo.name, context.token.name.data, MI_S) — exactly the first
MI_S bytes of the token's name span are compared against the descriptor
name, regardless of the token name's own length.  (A token name shorter
than the descriptor would make the source read past the span; the
instances used in the theorems keep the read in bounds.) -/
def memberNameMatches (descName tokenName : List Char) : Bool :=
  tokenName.take descName.length = descName

/-- The descriptor name at position i of the registered name list (the
positions used are always in bounds; the out-of-range default never
arises). -/
def descNameAt (names : List (List Char)) (i : Nat) : List Char :=
  names.getD i []

/-- MemberChecker&lt;T, Members, INDEX&gt;::unpackMembers, with the recursive
member decode abstracted: `f i` stands for the error
TokenParser&lt;MI_T&gt;::unpackToken returns for member i.  The scan tries
index `idx`, then idx - 1, ..., 0; on a name match the member's assigned
flag is set and the member decode runs, and the scan continues below only
when that attempt reported MissingPropertyMember. -/
def unpackMembersGo (names : List (List Char)) (f : Nat → JTError)
    (tokenName : List Char) : Nat → List Bool → JTError × List Bool
  | 0, assigned =>
    if memberNameMatches (descNameAt names 0) tokenName then (f 0, assigned.set 0 true)
    else (.MissingPropertyMember, assigned)
  | idx + 1, assigned =>
    let r : JTError × List Bool :=
      if memberNameMatches (descNameAt names (idx + 1)) tokenName then
        (f (idx + 1), assigned.set (idx + 1) true)
      else (.MissingPropertyMember, assigned)
    if r.1 ≠ .MissingPropertyMember then r
    else unpackMembersGo names f tokenName idx r.2

/-- unpackMembers as invoked from the composite unpackToken:
MemberChecker&lt;T, Members, tuple_size - 1&gt;. -/
def unpackMembers (names : List (List Char)) (f : Nat → JTError)
    (tokenName : List Char) (assigned : List Bool) : JTError × List Bool :=
  unpackMembersGo names f tokenName (names.length - 1) assigned

/-- A concrete composite type with a single int member named "a"
(JT_STRUCT(JT_MEMBER(a)) over struct { int a; }). -/
structure OneMember where
  a : Int
deriving DecidableEq, Repr

/-- The descriptor list of OneMember (an int member is not
optional-shaped). -/
def oneMemberDescs : List MemberDesc := [{ name := ['a'], isOptional := false }]

/-- The property loop of TokenParser&lt;OneMember&gt;::unpackToken: read
property tokens until ObjectEnd, dispatching each against the single
descriptor "a" (int decode on match), collecting unmatched names into
missing_members and aborting on them only when not allowed. -/
def oneMemberUnpackLoop : Nat → OneMember → List Bool → ParseContext →
    JTError × OneMember × List Bool × ParseContext
  | 0, v, assigned, ctx => (.UnknownError, v, assigned, ctx)
  | fuel + 1, v, assigned, ctx =>
    if ctx.token.value_type = .ObjectEnd then (.NoError, v, assigned, ctx)
    else
      let token_name := ctx.token.name
      let r : JTError × OneMember × List Bool :=
        if memberNameMatches ['a'] token_name then
          let ri := intUnpackToken ctx.token.value
          (ri.1, { a := ri.2 }, assigned.set 0 true)
        else (.MissingPropertyMember, v, assigned)
      if r.1 = .MissingPropertyMember then
        let ctx := { ctx with missing_members := ctx.missing_members ++ [token_name] }
        if ¬ctx.allow_missing_members then (r.1, r.2.1, r.2.2, ctx)
        else
          let rn := nextToken ctx.tokenizer ctx.token
          let ctx := { ctx with tokenizer := rn.2.2, token := rn.2.1 }
          if rn.1 ≠ .NoError then (rn.1, r.2.1, r.2.2, ctx)
          else oneMemberUnpackLoop fuel r.2.1 r.2.2 ctx
      else if r.1 ≠ .NoError then (r.1, r.2.1, r.2.2, ctx)
      else
        let rn := nextToken ctx.tokenizer ctx.token
        let ctx := { ctx with tokenizer := rn.2.2, token := rn.2.1 }
        if rn.1 ≠ .NoError then (rn.1, r.2.1, r.2.2, ctx)
        else oneMemberUnpackLoop fuel r.2.1 r.2.2 ctx

/-- TokenParser&lt;OneMember&gt;::unpackToken: expect ObjectStart, advance,
run the property loop, then the verify phase. -/
def oneMemberUnpackToken (v : OneMember) (ctx : ParseContext) :
    JTError × OneMember × ParseContext :=
  if ctx.token.value_type ≠ .ObjectStart then (.ExpectedObjectStart, v, ctx)
  else
    let rn := nextToken ctx.tokenizer ctx.token
    let ctx := { ctx with tokenizer := rn.2.2, token := rn.2.1 }
    if rn.1 ≠ .NoError then (rn.1, v, ctx)
    else
      let r := oneMemberUnpackLoop 64 v [false] ctx
      if r.1 ≠ .NoError then (r.1, r.2.1, r.2.2.2)
      else
        let rv := finishObjectVerify oneMemberDescs r.2.2.1 r.2.2.2
        (rv.1, r.2.1, rv.2)

/-- parseData&lt;OneMember&gt; over makeParseContextForData: the one-shot
need-more-data callback supplies the whole document at the first
nextToken call, which is modelled by pre-registering the buffer; the
member starts default-initialized (the int member of the source is
uninitialized; 0 here, and never observed unless assigned).  Returns the
context error, the decoded value and the final context. -/
def parseOneMember (doc : List Char) : JTError × OneMember × ParseContext :=
  let ctx : ParseContext := { tokenizer := addData {} doc }
  let rn := nextToken ctx.tokenizer ctx.token
  let ctx := { ctx with tokenizer := rn.2.2, token := rn.2.1 }
  if rn.1 ≠ .NoError then (rn.1, { a := 0 }, { ctx with error := rn.1 })
  else
    let r := oneMemberUnpackToken { a := 0 } ctx
    (r.1, r.2.1, { r.2.2 with error := r.1 })

/-- parseData&lt;OneMember&gt; under the strict missing-member configuration
(allow_missing_members = false); otherwise identical to parseOneMember. -/
def parseOneMemberNoMissing (doc : List Char) : JTError × OneMember × ParseContext :=
  let ctx : ParseContext := { tokenizer := addData {} doc
                            , allow_missing_members := false }
  let rn := nextToken ctx.tokenizer ctx.token
  let ctx := { ctx with tokenizer := rn.2.2, token := rn.2.1 }
  if rn.1 ≠ .NoError then (rn.1, { a := 0 }, { ctx with error := rn.1 })
  else
    let r := oneMemberUnpackToken { a := 0 } ctx
    (r.1, r.2.1, { r.2.2 with error := r.1 })

/-! ## Concrete documents and tokens used in the theorems -/

/-- The document bytes of ["a","b"]. -/
def docArrAB : List Char := ['[', '"', 'a', '"', ',', '"', 'b', '"', ']']

/-- First chunk of ["a","b"] split right after the first element. -/
def docArrABChunk1 : List Char := ['[', '"', 'a', '"']

/-- Second chunk of ["a","b"] split right after the first element. -/
def docArrABChunk2 : List Char := [',', '"', 'b', '"', ']']

/-- The document bytes of the object mapping x to the string hi. -/
def docXHi : List Char := ['{', '"', 'x', '"', ':', '"', 'h', 'i', '"', '}']

/-- First chunk of that object, split inside the string value. -/
def docXHiChunk1 : List Char := ['{', '"', 'x', '"', ':', '"', 'h', 'i']

/-- Second chunk of that object, split inside the string value. -/
def docXHiChunk2 : List Char := ['"', '}']

/-- The document bytes of [1,2,] (trailing comma). -/
def docTrailingComma : List Char := ['[', '1', ',', '2', ',', ']']

/-- The document bytes of the object with property name ab and value 1. -/
def docAB1 : List Char := ['{', '"', 'a', 'b', '"', ':', '1', '}']

/-- The document bytes of the object with property name q and value 1. -/
def docQ1 : List Char := ['{', '"', 'q', '"', ':', '1', '}']

/-- ObjectStart token as the serializer receives it. -/
def tokObjStart : Token :=
  { name_type := .String, name := [], value_type := .ObjectStart, value := ['{'] }

/-- Property token: name a, Number value 1. -/
def tokA1 : Token :=
  { name_type := .String, name := ['a'], value_type := .Number, value := ['1'] }

/-- ObjectEnd token as the serializer receives it. -/
def tokObjEnd : Token :=
  { name_type := .String, name := [], value_type := .ObjectEnd, value := ['}'] }

/-- A token transformer that is observably not the identity on the tokens
produced below (rewrites every value type to Null). -/
def nullifyTransformer : Token → Token :=
  fun tok => { tok with value_type := .Null }

/-- A serializer holding exactly one output buffer of capacity `cap` with
`used` bytes filled: the shape serializerWithBuffer produces and
Serializer::write maintains while the buffer has room. -/
def SingleBuf (s : Serializer) (cap used : Nat) : Prop :=
  ∃ b : SerializerBuffer,
    s.m_all_buffers = [b] ∧ s.m_unused_buffers = [0] ∧
    b.buffer.length = cap ∧ b.size = cap ∧ b.used = used

/-! ## Theorems -/

set_option maxHeartbeats 1600000 in
/-- Claim C1: the codec round-trip fails on the code.  Serializing INT_MAX
goes through char buf[10], which cannot hold the ten digits of 2147483647
plus the terminating NUL: snprintf stores only nine digits (plus NUL) yet
reports size 10, so the emitted token bytes are the nine digits followed
by a NUL, and decoding them with strtol yields 214748364, not 2147483647.
Independently, even a small scalar such as 5 cannot round-trip: the
tokenizer never completes a bare top-level value (the delimiter scan runs
out of data), so parseData stops with NeedMoreData before any value is
assigned. -/
theorem C1_int_roundtrip_evaluation :
    intSerializeTokenValue 2147483647 =
      (['2', '1', '4', '7', '4', '8', '3', '6', '4', '\x00'], 10) ∧
    intUnpackToken ['2', '1', '4', '7', '4', '8', '3', '6', '4', '\x00'] =
      (.NoError, 214748364) ∧
    (214748364 : Int) ≠ 2147483647 ∧
    tokenizeChunks {} [['5']] = ([], .NeedMoreData) :=
  ⟨rfl, rfl, by decide, rfl⟩

set_option maxHeartbeats 1600000 in
/-- Claim C2: chunk-invariance fails on the code.  The specific two-buffer
example of the claim does hold (first conjunct): splitting the x-to-hi
object inside the string value reproduces the one-buffer token sequence.
But the partition of ["a","b"] into ["a" and ,"b"] does not: the whole
document yields the element token with value a, while the chunked run
yields an empty String token in its place — the name pending at the exact
buffer end is lost because populateNextTokenFromDataRef exits its loop
(cursor at buffer end) before the delimiter state can save tmp_token into
the intermediate token, and the buffer is then released. -/
theorem C2_chunk_invariance_evaluation :
    tokenizeChunks {} [docXHiChunk1, docXHiChunk2] = tokenizeChunks {} [docXHi] ∧
    tokenizeChunks {} [docArrAB] =
      ([ { name_type := .Ascii, name := [], value_type := .ArrayStart, value := ['['] }
       , { name_type := .Ascii, name := [], value_type := .String, value := ['a'] }
       , { name_type := .Ascii, name := [], value_type := .String, value := ['b'] }
       , { name_type := .Ascii, name := [], value_type := .ArrayEnd, value := [']'] } ],
       .NeedMoreData) ∧
    tokenizeChunks {} [docArrABChunk1, docArrABChunk2] =
      ([ { name_type := .Ascii, name := [], value_type := .ArrayStart, value := ['['] }
       , { name_type := .Ascii, name := [], value_type := .String, value := [] }
       , { name_type := .Ascii, name := [], value_type := .String, value := ['b'] }
       , { name_type := .Ascii, name := [], value_type := .ArrayEnd, value := [']'] } ],
       .NeedMoreData) ∧
    (tokenizeChunks {} [docArrABChunk1, docArrABChunk2]).1 ≠
      (tokenizeChunks {} [docArrAB]).1 := by
  have hwhole :
      tokenizeChunks {} [docArrAB] =
        ([ { name_type := .Ascii, name := [], value_type := .ArrayStart, value := ['['] }
         , { name_type := .Ascii, name := [], value_type := .String, value := ['a'] }
         , { name_type := .Ascii, name := [], value_type := .String, value := ['b'] }
         , { name_type := .Ascii, name := [], value_type := .ArrayEnd, value := [']'] } ],
         .NeedMoreData) := rfl
  have hchunk :
      tokenizeChunks {} [docArrABChunk1, docArrABChunk2] =
        ([ { name_type := .Ascii, name := [], value_type := .ArrayStart, value := ['['] }
         , { name_type := .Ascii, name := [], value_type := .String, value := [] }
         , { name_type := .Ascii, name := [], value_type := .String, value := ['b'] }
         , { name_type := .Ascii, name := [], value_type := .ArrayEnd, value := [']'] } ],
         .NeedMoreData) := rfl
  have hx1 :
      tokenizeChunks {} [docXHiChunk1, docXHiChunk2] =
        ([ { name_type := .Ascii, name := [], value_type := .ObjectStart, value := ['{'] }
         , { name_type := .String, name := ['x'], value_type := .String, value := ['h', 'i'] }
         , { name_type := .Ascii, name := [], value_type := .ObjectEnd, value := ['}'] } ],
         .NeedMoreData) := rfl
  have hx2 :
      tokenizeChunks {} [docXHi] =
        ([ { name_type := .Ascii, name := [], value_type := .ObjectStart, value := ['{'] }
         , { name_type := .String, name := ['x'], value_type := .String, value := ['h', 'i'] }
         , { name_type := .Ascii, name := [], value_type := .ObjectEnd, value := ['}'] } ],
         .NeedMoreData) := rfl
  refine ⟨hx1.trans hx2.symm, hwhole, hchunk, ?_⟩
  rw [hwhole, hchunk]
  decide

set_option maxHeartbeats 1600000 in
/-- Claim C3: a registered token transformer is never applied, because
Tokenizer::registerTokenTransformer assigns its parameter to itself (the
parameter shadows the member), leaving the member transformer unset.
First conjunct: registration leaves the tokenizer unchanged.  Remaining
conjuncts: after registering a transformer that rewrites every value type
to Null, a successful nextToken still returns the untransformed
ArrayStart token, which differs from what the transformer would produce.
-/
theorem C3_transformer_registration_evaluation :
    (∀ (st : Tokenizer) (f : Token → Token), registerTokenTransformer st f = st) ∧
    (nextToken (addData (registerTokenTransformer {} nullifyTransformer) ['[']) {}).1 =
      .NoError ∧
    (nextToken (addData (registerTokenTransformer {} nullifyTransformer) ['[']) {}).2.1.value_type =
      .ArrayStart ∧
    nullifyTransformer
        (nextToken (addData (registerTokenTransformer {} nullifyTransformer) ['[']) {}).2.1 ≠
      (nextToken (addData (registerTokenTransformer {} nullifyTransformer) ['[']) {}).2.1 := by
  have htok :
      (nextToken (addData (registerTokenTransformer {} nullifyTransformer) ['[']) {}).2.1 =
        { name_type := .Ascii, name := [], value_type := .ArrayStart, value := ['['] } := rfl
  refine ⟨fun st f => rfl, rfl, rfl, ?_⟩
  rw [htok]
  decide

set_option maxHeartbeats 1600000 in
/-- Claim C6: tokenizing [1,2,] with allowSuperfluousComma(false) — the
default — does not fail: it produces ArrayStart, Number 1, Number 2,
ArrayEnd with no ExpectedDataToken.  Scalar array elements are emitted
through the delimiter scan (findDelimiter), which consumes the comma
without ever setting expecting_prop_or_annonymous_data, so the check
guarding a close bracket after a pending comma never fires for them (it
does fire for object members and container-valued elements, whose commas
are consumed by findTokenEnd).  Enabling the superfluous-comma switch
yields the same sequence. -/
theorem C6_trailing_comma_evaluation :
    tokenizeChunks {} [docTrailingComma] =
      ([ { name_type := .Ascii, name := [], value_type := .ArrayStart, value := ['['] }
       , { name_type := .Ascii, name := [], value_type := .Number, value := ['1'] }
       , { name_type := .Ascii, name := [], value_type := .Number, value := ['2'] }
       , { name_type := .Ascii, name := [], value_type := .ArrayEnd, value := [']'] } ],
       .NeedMoreData) ∧
    tokenizeChunks (allowSuperfluousComma {} true) [docTrailingComma] =
      tokenizeChunks {} [docTrailingComma] := by
  have hdef :
      tokenizeChunks {} [docTrailingComma] =
        ([ { name_type := .Ascii, name := [], value_type := .ArrayStart, value := ['['] }
         , { name_type := .Ascii, name := [], value_type := .Number, value := ['1'] }
         , { name_type := .Ascii, name := [], value_type := .Number, value := ['2'] }
         , { name_type := .Ascii, name := [], value_type := .ArrayEnd, value := [']'] } ],
         .NeedMoreData) := rfl
  have hallow :
      tokenizeChunks (allowSuperfluousComma {} true) [docTrailingComma] =
        ([ { name_type := .Ascii, name := [], value_type := .ArrayStart, value := ['['] }
         , { name_type := .Ascii, name := [], value_type := .Number, value := ['1'] }
         , { name_type := .Ascii, name := [], value_type := .Number, value := ['2'] }
         , { name_type := .Ascii, name := [], value_type := .ArrayEnd, value := [']'] } ],
         .NeedMoreData) := rfl
  exact ⟨hdef, hallow.trans hdef.symm⟩

set_option maxHeartbeats 1600000 in
/-- Claim C4 counterexample: in Pretty style with shift size 4 the
serializer emits an opening brace, newline, four spaces, the quoted name,
space-colon-space, the value, newline and the closing brace — and nothing
after the closing brace.  The postfix newline is written before each
non-first token, so no trailing newline follows the final ObjectEnd, and
the produced bytes differ from the claimed ones (which end in a
newline). -/
theorem C4_pretty_trailing_newline_counterexample :
    (writeTokens (serializerWithBuffer .Pretty 16) [tokObjStart, tokA1, tokObjEnd]).1 = true ∧
    serializedBytes
        (writeTokens (serializerWithBuffer .Pretty 16) [tokObjStart, tokA1, tokObjEnd]).2 ≠
      ['{', '\n', ' ', ' ', ' ', ' ', '"', 'a', '"', ' ', ':', ' ', '1', '\n', '}', '\n'] := by
  have h :
      serializedBytes
          (writeTokens (serializerWithBuffer .Pretty 16) [tokObjStart, tokA1, tokObjEnd]).2 =
        ['{', '\n', ' ', ' ', ' ', ' ', '"', 'a', '"', ' ', ':', ' ', '1', '\n', '}'] := rfl
  exact ⟨rfl, by rw [h]; decide⟩

set_option maxHeartbeats 1600000 in
/-- Claim C4 as amended: writing the ObjectStart / name-a-value-1 /
ObjectEnd token sequence through Serializer::write produces exactly the
seven bytes of the compact object in Compact style, and in Pretty style
(shift size 4) exactly opening brace, newline, four spaces, quoted name,
space-colon-space, value, newline, closing brace — with no trailing
newline after the closing brace. -/
theorem C4_serializer_exact_bytes :
    (writeTokens (serializerWithBuffer .Compact 16) [tokObjStart, tokA1, tokObjEnd]).1 = true ∧
    serializedBytes
        (writeTokens (serializerWithBuffer .Compact 16) [tokObjStart, tokA1, tokObjEnd]).2 =
      ['{', '"', 'a', '"', ':', '1', '}'] ∧
    (writeTokens (serializerWithBuffer .Pretty 16) [tokObjStart, tokA1, tokObjEnd]).1 = true ∧
    serializedBytes
        (writeTokens (serializerWithBuffer .Pretty 16) [tokObjStart, tokA1, tokObjEnd]).2 =
      ['{', '\n', ' ', ' ', ' ', ' ', '"', 'a', '"', ' ', ':', ' ', '1', '\n', '}'] :=
  ⟨rfl, rfl, rfl, rfl⟩

/-- Claim C5 counterexample: the five-byte value truex is neither the four
bytes of true nor the five bytes of false, yet
TokenParser&lt;bool&gt;::unpackToken accepts it and assigns true, because
memcmp("true", data, 4) only inspects the first four bytes. -/
theorem C5_prefix_counterexample :
    boolUnpackToken ['t', 'r', 'u', 'e', 'x'] false = (.NoError, true) ∧
    (['t', 'r', 'u', 'e', 'x'] : List Char) ≠ ['t', 'r', 'u', 'e'] ∧
    (['t', 'r', 'u', 'e', 'x'] : List Char) ≠ ['f', 'a', 'l', 's', 'e'] := by
  refine ⟨rfl, by decide, by decide⟩

/-- Claim C5 as amended: for values of at least five bytes (where the
fixed-length memcmp reads stay inside the span), unpackToken assigns true
when and only when the first four bytes are true, assigns false when and
only when the first four bytes are not true and the first five bytes are
false, and returns FailedToParseBoolen (leaving the target untouched)
exactly otherwise. -/
theorem C5_bool_prefix_match (v : List Char) (b : Bool) (_h5 : 5 ≤ v.length) :
    ((boolUnpackToken v b = (.NoError, true)) ↔ v.take 4 = ['t', 'r', 'u', 'e']) ∧
    ((boolUnpackToken v b = (.NoError, false)) ↔
       (v.take 4 ≠ ['t', 'r', 'u', 'e'] ∧ v.take 5 = ['f', 'a', 'l', 's', 'e'])) ∧
    (((boolUnpackToken v b).1 = .FailedToParseBoolen) ↔
       (v.take 4 ≠ ['t', 'r', 'u', 'e'] ∧ v.take 5 ≠ ['f', 'a', 'l', 's', 'e'])) ∧
    ((boolUnpackToken v b).1 = .FailedToParseBoolen → (boolUnpackToken v b).2 = b) := by
  by_cases h1 : v.take 4 = ['t', 'r', 'u', 'e'] <;>
    by_cases h2 : v.take 5 = ['f', 'a', 'l', 's', 'e'] <;>
      simp [boolUnpackToken, h1, h2]

/-- Witness for C5_bool_prefix_match at the value false (five bytes). -/
theorem C5_bool_prefix_match_witness :
    5 ≤ (['f', 'a', 'l', 's', 'e'] : List Char).length ∧
    boolUnpackToken ['f', 'a', 'l', 's', 'e'] true = (.NoError, false) := by
  have h := C5_bool_prefix_match ['f', 'a', 'l', 's', 'e'] true (by decide)
  exact ⟨by decide, h.2.1.mpr (by decide)⟩

/-- Claim C9: for a SerializerBuffer with used ≤ size over a byte array of
length size, append(data, size) either fits (used + size ≤ capacity),
returns true, advances used by exactly the data length and leaves the
first `used` bytes unchanged — or does not fit, returns false and leaves
the buffer entirely unchanged; the used ≤ capacity invariant holds
afterwards in both cases. -/
theorem C9_buffer_append (b : SerializerBuffer) (data : List Char)
    (hused : b.used ≤ b.size) (hbuf : b.buffer.length = b.size) :
    (b.used + data.length ≤ b.size →
       (b.append data).1 = true ∧
       (b.append data).2.used = b.used + data.length ∧
       (b.append data).2.size = b.size ∧
       (b.append data).2.buffer.take b.used = b.buffer.take b.used ∧
       (b.append data).2.used ≤ (b.append data).2.size) ∧
    (b.size < b.used + data.length →
       (b.append data).1 = false ∧
       (b.append data).2 = b ∧
       (b.append data).2.used ≤ (b.append data).2.size) := by
  constructor
  · intro hfit
    have hnot : ¬ (b.used + data.length > b.size) := by omega
    have happ : b.append data =
        (true, { b with buffer := b.buffer.take b.used ++ data ++
                                    b.buffer.drop (b.used + data.length)
                      , used := b.used + data.length }) := by
      simp [SerializerBuffer.append, hnot]
    rw [happ]
    refine ⟨rfl, rfl, rfl, ?_, hfit⟩
    have hlen : (b.buffer.take b.used).length = b.used := by
      rw [List.length_take]; omega
    rw [List.append_assoc,
        List.take_append_of_le_length (by rw [hlen]),
        List.take_take, Nat.min_self]
  · intro hover
    have hgt : b.used + data.length > b.size := by omega
    have happ : b.append data = (false, b) := by
      simp [SerializerBuffer.append, hgt]
    rw [happ]
    exact ⟨rfl, rfl, hused⟩

/-- Witness for C9_buffer_append: a two-byte buffer with one byte used,
appending one byte (which fits). -/
theorem C9_buffer_append_witness :
    (({ buffer := ['x', 'y'], size := 2, used := 1 } : SerializerBuffer).used ≤ 2 ∧
     ({ buffer := ['x', 'y'], size := 2, used := 1 } : SerializerBuffer).buffer.length = 2) ∧
    (({ buffer := ['x', 'y'], size := 2, used := 1 } : SerializerBuffer).append ['z']).1 = true ∧
    (({ buffer := ['x', 'y'], size := 2, used := 1 } : SerializerBuffer).append ['z']).2.used = 2 := by
  have h := C9_buffer_append { buffer := ['x', 'y'], size := 2, used := 1 } ['z']
    (by decide) (by decide)
  have h1 := h.1 (by decide)
  exact ⟨⟨by decide, by decide⟩, h1.1, h1.2.1⟩

/-- Characterization of the verify recursion: the error is
UnassignedRequiredMember exactly when some processed pair is unassigned
and required, and the names pushed are those of the unassigned required
pairs in processing order. -/
theorem verifyMembersRev_spec (pairs : List (MemberDesc × Bool)) (missing : List (List Char)) :
    verifyMembersRev pairs missing =
      ((if pairs.any (fun p => !p.2 && !p.1.isOptional) then JTError.UnassignedRequiredMember
        else JTError.NoError),
       missing ++ (pairs.filter (fun p => !p.2 && !p.1.isOptional)).map (fun p => p.1.name)) := by
  induction pairs generalizing missing with
  | nil => simp [verifyMembersRev]
  | cons hd tl ih =>
    obtain ⟨d, a⟩ := hd
    obtain ⟨dn, dopt⟩ := d
    cases a <;> cases dopt <;>
      simp only [verifyMembersRev, verifyMember, ih, List.any_cons, List.filter_cons] <;>
      simp <;>
      cases htl : tl.any (fun p => !p.2 && !p.1.isOptional) <;>
      simp [htl]

/-- Claim C7: when the composite decode reaches ObjectEnd with member i
unassigned and non-optional, the post-loop verify phase under the soft
configuration (allow unassigned required members, the default) returns
NoError and appends that member's name to the context's
unassigned-required-members list; under the strict configuration it
returns UnassignedRequiredMember.  Moreover every name the phase adds to
that list comes from some unassigned, non-optional member: members of
optional-shaped types are never reported. -/
theorem C7_missing_required_member (members : List MemberDesc) (assigned : List Bool)
    (ctx : ParseContext) (i : Nat) (hi : i < members.length) (hia : i < assigned.length)
    (hna : assigned[i] = false) (hreq : members[i].isOptional = false) :
    (ctx.allow_unnasigned_required__members = true →
       (finishObjectVerify members assigned ctx).1 = .NoError ∧
       members[i].name ∈
         (finishObjectVerify members assigned ctx).2.unassigned_required_members) ∧
    (ctx.allow_unnasigned_required__members = false →
       (finishObjectVerify members assigned ctx).1 = .UnassignedRequiredMember) ∧
    (∀ nm, nm ∈ (finishObjectVerify members assigned ctx).2.unassigned_required_members →
       nm ∈ ctx.unassigned_required_members ∨
       ∃ j, ∃ hj : j < members.length, ∃ hja : j < assigned.length,
         members[j].name = nm ∧ assigned[j] = false ∧ members[j].isOptional = false) := by
  have hzlen : i < (members.zip assigned).length := by
    rw [List.length_zip]; omega
  have hmem : (members[i], assigned[i]) ∈ (members.zip assigned).reverse := by
    rw [List.mem_reverse]
    have hm := List.getElem_mem (l := members.zip assigned) (n := i) hzlen
    rwa [List.getElem_zip] at hm
  have hpred : (fun p : MemberDesc × Bool => !p.2 && !p.1.isOptional)
      (members[i], assigned[i]) = true := by
    simp [hna, hreq]
  have hany : (members.zip assigned).reverse.any
      (fun p => !p.2 && !p.1.isOptional) = true :=
    List.any_eq_true.mpr ⟨_, hmem, hpred⟩
  have hspec := verifyMembersRev_spec ((members.zip assigned).reverse) []
  rw [hany, if_pos rfl] at hspec
  have hin : members[i].name ∈
      ((members.zip assigned).reverse.filter
          (fun p => !p.2 && !p.1.isOptional)).map (fun p => p.1.name) :=
    List.mem_map.mpr ⟨(members[i], assigned[i]), List.mem_filter.mpr ⟨hmem, hpred⟩, rfl⟩
  have hfin1 : (finishObjectVerify members assigned ctx).1 =
      (if ctx.allow_unnasigned_required__members then JTError.NoError
       else JTError.UnassignedRequiredMember) := by
    simp [finishObjectVerify, hspec]
  have hfin2 : (finishObjectVerify members assigned ctx).2.unassigned_required_members =
      ctx.unassigned_required_members ++
        ((members.zip assigned).reverse.filter
            (fun p => !p.2 && !p.1.isOptional)).map (fun p => p.1.name) := by
    simp [finishObjectVerify, hspec]
  refine ⟨?_, ?_, ?_⟩
  · intro hallow
    rw [hfin1, hallow, hfin2]
    exact ⟨rfl, List.mem_append.mpr (Or.inr hin)⟩
  · intro hstrict
    rw [hfin1, hstrict]
    rfl
  · intro nm hnm
    rw [hfin2] at hnm
    rcases List.mem_append.mp hnm with hl | hr
    · exact Or.inl hl
    · right
      obtain ⟨p, hpf, hpnm⟩ := List.mem_map.mp hr
      obtain ⟨hpz, hppred⟩ := List.mem_filter.mp hpf
      rw [List.mem_reverse] at hpz
      obtain ⟨⟨j, hj⟩, hget⟩ := List.mem_iff_get.mp hpz
      have hjm : j < members.length := List.lt_length_left_of_zip hj
      have hja : j < assigned.length := List.lt_length_right_of_zip hj
      have hpj : p = (members[j], assigned[j]) := by
        rw [← hget]
        simp [List.get_eq_getElem, List.getElem_zip]
      rw [hpj] at hpnm hppred
      simp only [Bool.and_eq_true, Bool.not_eq_true'] at hppred
      exact ⟨j, hjm, hja, hpnm, hppred.1, hppred.2⟩

/-- Witness for C7_missing_required_member: a two-member composite (a
required, b optional) with neither member assigned, soft configuration. -/
theorem C7_missing_required_member_witness :
    (([false, false] : List Bool)[0] = false ∧
     ([{ name := ['a'], isOptional := false },
       { name := ['b'], isOptional := true }] : List MemberDesc)[0].isOptional = false) ∧
    (finishObjectVerify
        [{ name := ['a'], isOptional := false }, { name := ['b'], isOptional := true }]
        [false, false] {}).1 = .NoError ∧
    (['a'] : List Char) ∈
      (finishObjectVerify
          [{ name := ['a'], isOptional := false }, { name := ['b'], isOptional := true }]
          [false, false] {}).2.unassigned_required_members := by
  have h := C7_missing_required_member
    [{ name := ['a'], isOptional := false }, { name := ['b'], isOptional := true }]
    [false, false] {} 0 (by decide) (by decide) (by decide) (by decide)
  have h1 := h.1 rfl
  exact ⟨⟨by decide, by decide⟩, h1.1, h1.2⟩

/-- Characterization of the member-dispatch recursion: scanning indices
idx, idx-1, ..., 0, the first index (i.e. the highest one) whose
descriptor name is a prefix of the token name of the descriptor's own
length wins; when no index matches, MissingPropertyMember is reported and
no assigned flag changes.  Member decodes are abstracted by f, assumed
never to report MissingPropertyMember themselves (true of every scalar
parser). -/
theorem unpackMembersGo_spec (names : List (List Char)) (f : Nat → JTError)
    (tokenName : List Char) (hf : ∀ i, f i ≠ .MissingPropertyMember) :
    ∀ (idx : Nat) (assigned : List Bool),
      ((∀ j, j ≤ idx → memberNameMatches (descNameAt names j) tokenName = false) →
         unpackMembersGo names f tokenName idx assigned = (.MissingPropertyMember, assigned)) ∧
      (∀ i, i ≤ idx → memberNameMatches (descNameAt names i) tokenName = true →
         (∀ j, i < j → j ≤ idx → memberNameMatches (descNameAt names j) tokenName = false) →
         unpackMembersGo names f tokenName idx assigned = (f i, assigned.set i true)) := by
  intro idx
  induction idx with
  | zero =>
    intro assigned
    constructor
    · intro hnone
      have h0 := hnone 0 (le_refl 0)
      simp only [unpackMembersGo]
      rw [if_neg (by rw [h0]; exact Bool.false_ne_true)]
    · intro i hi hmatch _
      have hi0 : i = 0 := Nat.le_zero.mp hi
      subst hi0
      simp only [unpackMembersGo]
      rw [if_pos hmatch]
  | succ idx ih =>
    intro assigned
    constructor
    · intro hnone
      have htop := hnone (idx + 1) (le_refl _)
      have hrest := (ih assigned).1 (fun j hj => hnone j (Nat.le_succ_of_le hj))
      have hr : (if memberNameMatches (descNameAt names (idx + 1)) tokenName = true then
            (f (idx + 1), assigned.set (idx + 1) true)
          else ((JTError.MissingPropertyMember, assigned) : JTError × List Bool)) =
          (JTError.MissingPropertyMember, assigned) := by
        rw [if_neg (by rw [htop]; exact Bool.false_ne_true)]
      simp only [unpackMembersGo, hr]
      simpa using hrest
    · intro i hi hmatch hnomatch
      by_cases htop : i = idx + 1
      · subst htop
        have hr : (if memberNameMatches (descNameAt names (idx + 1)) tokenName = true then
              (f (idx + 1), assigned.set (idx + 1) true)
            else ((JTError.MissingPropertyMember, assigned) : JTError × List Bool)) =
            (f (idx + 1), assigned.set (idx + 1) true) := by
          rw [if_pos hmatch]
        simp only [unpackMembersGo, hr]
        simp [hf (idx + 1)]
      · have hile : i ≤ idx := by omega
        have htopf := hnomatch (idx + 1) (by omega) (le_refl _)
        have hrest := (ih assigned).2 i hile hmatch
          (fun j hij hj => hnomatch j hij (Nat.le_succ_of_le hj))
        have hr : (if memberNameMatches (descNameAt names (idx + 1)) tokenName = true then
              (f (idx + 1), assigned.set (idx + 1) true)
            else ((JTError.MissingPropertyMember, assigned) : JTError × List Bool)) =
            (JTError.MissingPropertyMember, assigned) := by
          rw [if_neg (by rw [htopf]; exact Bool.false_ne_true)]
        simp only [unpackMembersGo, hr]
        simpa using hrest

set_option maxHeartbeats 1600000 in
/-- Claim C8 counterexample: decoding the object whose single property is
named ab against a composite with the single int member a assigns that
member (value 1) and collects nothing into missing_members, although ab is
a strict extension of the descriptor name a and differs from it —
unpackMember compares memcmp(name, token_name, MI_S) over the descriptor's
length only, so the extension matches. -/
theorem C8_extension_match_counterexample :
    (parseOneMember docAB1).1 = .NoError ∧
    (parseOneMember docAB1).2.1 = { a := 1 } ∧
    (parseOneMember docAB1).2.2.missing_members = [] ∧
    (['a', 'b'] : List Char) ≠ ['a'] ∧
    memberNameMatches ['a'] ['a', 'b'] = true := by
  refine ⟨rfl, rfl, rfl, by decide, rfl⟩

set_option maxHeartbeats 1600000 in
/-- Claim C8 as amended: during composite decode the member list is
scanned linearly and the member assigned is the first descriptor in scan
order whose registered name matches the first descriptor-name-length
bytes of the token's name — so a token name that strictly extends a
descriptor name does match that descriptor; when no descriptor matches,
no member is assigned.  (The scan runs from the last descriptor down to
the first, which the dispatch conjuncts make precise.)  A token whose
name matches no descriptor has that name collected into the
missing-members list; decode continues when missing members are allowed
and aborts with the MissingPropertyMember error otherwise — both shown on
the concrete object with unknown property q: the soft run finishes with
NoError, the strict run returns the error immediately after collecting
the name, before the verify phase. -/
theorem C8_member_dispatch (names : List (List Char)) (f : Nat → JTError)
    (tokenName : List Char) (assigned : List Bool)
    (hne : names ≠ []) (hf : ∀ i, f i ≠ .MissingPropertyMember) :
    ((∀ j, (hj : j < names.length) → memberNameMatches names[j] tokenName = false) →
       unpackMembers names f tokenName assigned = (.MissingPropertyMember, assigned)) ∧
    (∀ i, (hi : i < names.length) → memberNameMatches names[i] tokenName = true →
       (∀ j, (hj : j < names.length) → i < j → memberNameMatches names[j] tokenName = false) →
       unpackMembers names f tokenName assigned = (f i, assigned.set i true)) ∧
    (parseOneMember docQ1).1 = .NoError ∧
    (parseOneMember docQ1).2.2.missing_members = [['q']] ∧
    (parseOneMember docQ1).2.2.unassigned_required_members = [['a']] ∧
    (parseOneMemberNoMissing docQ1).1 = .MissingPropertyMember ∧
    (parseOneMemberNoMissing docQ1).2.2.missing_members = [['q']] ∧
    (parseOneMemberNoMissing docQ1).2.2.unassigned_required_members = [] := by
  have hlen : 0 < names.length := List.length_pos.mpr hne
  have hgo := unpackMembersGo_spec names f tokenName hf (names.length - 1) assigned
  refine ⟨?_, ?_, rfl, rfl, rfl, rfl, rfl, rfl⟩
  · intro hnomatch
    refine hgo.1 ?_
    intro j hj
    have hjlt : j < names.length := by omega
    have hd : descNameAt names j = names[j] := List.getD_eq_getElem names [] hjlt
    rw [hd]
    exact hnomatch j hjlt
  · intro i hi hmatch hnomatch
    refine hgo.2 i (by omega) ?_ ?_
    · have hd : descNameAt names i = names[i] := List.getD_eq_getElem names [] hi
      rw [hd]
      exact hmatch
    · intro j hij hj
      have hjlt : j < names.length := by omega
      have hd : descNameAt names j = names[j] := List.getD_eq_getElem names [] hjlt
      rw [hd]
      exact hnomatch j hjlt hij

/-- Witness for C8_member_dispatch: a single descriptor a, token name ab
(a strict extension), which matches and assigns member 0. -/
theorem C8_member_dispatch_witness :
    (([['a']] : List (List Char)) ≠ [] ∧
     (∀ i : Nat, (fun _ : Nat => JTError.NoError) i ≠ .MissingPropertyMember)) ∧
    unpackMembers [['a']] (fun _ => JTError.NoError) ['a', 'b'] [false] =
      (.NoError, [true]) := by
  have h := C8_member_dispatch [['a']] (fun _ => JTError.NoError) ['a', 'b'] [false]
    (by decide) (fun i => by simp)
  have h2 := h.2.1 0 (by decide) (by decide) (fun j hj hij => by simp at hj; omega)
  exact ⟨⟨by decide, fun i => by simp⟩, h2⟩

/-- The byte-at-a-time write loop over a single buffer with room for the
remaining k bytes finishes the write: it appends the suffix of `data` from
`written` on at offset used and reports the full length written. -/
theorem writeRawLoop_single (data : List Char) :
    ∀ (k fuel written : Nat) (s : Serializer) (b : SerializerBuffer),
      s.m_all_buffers = [b] → s.m_unused_buffers = [0] →
      b.buffer.length = b.size →
      written + k = data.length → b.used + k ≤ b.size → k < fuel →
      writeRawLoop fuel s data data.length written =
        (data.length,
         { s with m_all_buffers :=
             [{ buffer := b.buffer.take b.used ++ data.drop written ++
                          b.buffer.drop (b.used + k)
              , size := b.size, used := b.used + k }] }) := by
  intro k
  induction k with
  | zero =>
    intro fuel written s b h1 h2 h3 h4 h5 h6
    obtain ⟨f, rfl⟩ : ∃ f, fuel = f + 1 := ⟨fuel - 1, by omega⟩
    have hw : written = data.length := by omega
    subst hw
    have hb : ({ buffer := b.buffer.take b.used ++ data.drop data.length ++
                           b.buffer.drop (b.used + 0)
               , size := b.size, used := b.used + 0 } : SerializerBuffer) = b := by
      obtain ⟨buf, sz, us⟩ := b
      simp [List.drop_length, List.take_append_drop]
    rw [hb, ← h1]
    simp only [writeRawLoop, h2]
    simp
    rw [← h2]
  | succ k ih =>
    intro fuel written s b h1 h2 h3 h4 h5 h6
    obtain ⟨f, rfl⟩ : ∃ f, fuel = f + 1 := ⟨fuel - 1, by omega⟩
    have hwlt : written < data.length := by omega
    have husz : b.used < b.size := by omega
    have hbl : b.used < b.buffer.length := by omega
    have hfree : b.free = true := by
      simp only [SerializerBuffer.free]
      simp only [ne_eq, decide_eq_true_eq]
      omega
    have hmin : min data.length 1 = 1 := Nat.min_eq_right (by omega)
    have hdrop : data.drop written = data[written] :: data.drop (written + 1) :=
      List.drop_eq_getElem_cons hwlt
    have htake1 : (data.drop written).take 1 = [data[written]] := by
      rw [hdrop]
      rfl
    have happ : b.append [data[written]] =
        (true, { buffer := b.buffer.take b.used ++ [data[written]] ++
                           b.buffer.drop (b.used + 1)
               , size := b.size, used := b.used + 1 }) := by
      simp only [SerializerBuffer.append, List.length_cons, List.length_nil]
      rw [if_neg (by omega)]
    have hstep : writeRawLoop (f + 1) s data data.length written =
        writeRawLoop f
          { s with m_all_buffers :=
              [{ buffer := b.buffer.take b.used ++ [data[written]] ++
                           b.buffer.drop (b.used + 1)
               , size := b.size, used := b.used + 1 }] }
          data data.length (written + 1) := by
      simp only [writeRawLoop, h2]
      rw [if_pos hwlt]
      rw [h1]
      simp only [List.get?]
      rw [hfree]
      simp only [Bool.not_true, Bool.false_eq_true, if_false]
      rw [hmin, htake1, happ]
      rfl
    rw [hstep]
    have hb1len : (b.buffer.take b.used ++ [data[written]] ++
        b.buffer.drop (b.used + 1)).length = b.size := by
      simp [List.length_take, List.length_drop]
      omega
    rw [ih f (written + 1)
      { s with m_all_buffers :=
          [{ buffer := b.buffer.take b.used ++ [data[written]] ++
                       b.buffer.drop (b.used + 1)
           , size := b.size, used := b.used + 1 }] }
      { buffer := b.buffer.take b.used ++ [data[written]] ++
                  b.buffer.drop (b.used + 1)
      , size := b.size, used := b.used + 1 }
      rfl h2 hb1len (by omega) (by simpa using (by omega : b.used + 1 + k ≤ b.size)) (by omega)]
    -- now identify the two final buffers
    have htakelen : (b.buffer.take b.used).length = b.used := by
      simp [List.length_take]
      omega
    have htk : (b.buffer.take b.used ++ [data[written]] ++
        b.buffer.drop (b.used + 1)).take (b.used + 1) =
        b.buffer.take b.used ++ [data[written]] := by
      rw [List.take_append_of_le_length (by simp [htakelen])]
      have : (b.buffer.take b.used ++ [data[written]]).length = b.used + 1 := by
        simp [htakelen]
      rw [← this, List.take_length]
    have hdr : (b.buffer.take b.used ++ [data[written]] ++
        b.buffer.drop (b.used + 1)).drop (b.used + 1 + k) =
        b.buffer.drop (b.used + (k + 1)) := by
      have hlen2 : (b.buffer.take b.used ++ [data[written]]).length = b.used + 1 := by
        simp [htakelen]
      rw [List.append_assoc]
      rw [show b.used + 1 + k = (b.buffer.take b.used).length + (1 + k) by omega]
      rw [List.drop_append]
      rw [show (1 : Nat) + k = [data[written]].length + k by simp]
      rw [List.drop_append]
      rw [List.drop_drop]
      congr 1
      omega
    rw [htk, hdr]
    have hmid : b.buffer.take b.used ++ [data[written]] ++ data.drop (written + 1) =
        b.buffer.take b.used ++ data.drop written := by
      rw [hdrop]
      simp
    rw [hmid]
    have harith : b.used + 1 + k = b.used + (k + 1) := by omega
    rw [harith]

/-- The produced bytes of a single-buffer serializer. -/
theorem serializedBytes_single (s : Serializer) (b : SerializerBuffer)
    (h : s.m_all_buffers = [b]) : serializedBytes s = b.buffer.take b.used := by
  simp [serializedBytes, h]

/-- Serializer::write(const char*, size_t) on a single buffer with enough
room succeeds and appends exactly the given bytes after the already
produced ones. -/
theorem writeRaw_spec (s : Serializer) (cap used : Nat) (data : List Char)
    (h : SingleBuf s cap used) (hfit : used + data.length ≤ cap) :
    (s.writeRaw data).1 = true ∧
    SingleBuf (s.writeRaw data).2 cap (used + data.length) ∧
    serializedBytes (s.writeRaw data).2 = serializedBytes s ++ data := by
  obtain ⟨b, hall, hunused, hblen, hbsize, hbused⟩ := h
  by_cases hd : data.length = 0
  · have hdn : data = [] := List.length_eq_zero.mp hd
    subst hdn
    have hw : s.writeRaw [] = (true, s) := by simp [Serializer.writeRaw]
    rw [hw]
    exact ⟨rfl, ⟨b, hall, hunused, hblen, hbsize, by omega⟩, by simp⟩
  · have hbl2 : b.buffer.length = b.size := by omega
    have hfuel : data.length < data.length + s.m_unused_buffers.length + 1 := by omega
    have hloop := writeRawLoop_single data data.length
      (data.length + s.m_unused_buffers.length + 1) 0 s b hall hunused hbl2
      (by omega) (by omega) hfuel
    simp only [Serializer.writeRaw]
    rw [if_neg hd, hloop]
    rw [List.drop_zero] at hloop ⊢
    have htakelen : (b.buffer.take b.used).length = b.used := by
      simp [List.length_take]
      omega
    refine ⟨by simp, ?_, ?_⟩
    · refine ⟨_, rfl, hunused, ?_, hbsize, ?_⟩
      · simp [List.length_take, List.length_drop]
        omega
      · show b.used + data.length = used + data.length
        omega
    · rw [serializedBytes_single _ _ rfl, serializedBytes_single s b hall]
      have hlen2 : (b.buffer.take b.used ++ data).length = b.used + data.length := by
        simp [htakelen]
      rw [show b.used + data.length = (b.buffer.take b.used ++ data).length from hlen2.symm]
      rw [List.take_append_of_le_length (le_refl _), List.take_length]

/-- Serializer::writeAsString on a single roomy buffer: the emitted bytes
are the span itself when its first byte is a quote, and the span wrapped
in one quote on each side otherwise — no other byte of the span is
consulted. -/
theorem writeAsString_spec (s : Serializer) (cap used : Nat) (c : Char) (rest : List Char)
    (h : SingleBuf s cap used) (hfit : used + rest.length + 3 ≤ cap) :
    (s.writeAsString (c :: rest)).1 = true ∧
    serializedBytes (s.writeAsString (c :: rest)).2 =
      serializedBytes s ++ (if c = '"' then c :: rest else '"' :: ((c :: rest) ++ ['"'])) := by
  by_cases hq : c = '"'
  · have h1 := writeRaw_spec s cap used (c :: rest) h (by simp; omega)
    simp only [Serializer.writeAsString, List.headD_cons]
    rw [if_neg (by simp [hq])]
    rw [if_neg (by simp [h1.1])]
    rw [if_pos hq]
    exact ⟨rfl, h1.2.2⟩
  · have h1 := writeRaw_spec s cap used ['"'] h (by simp; omega)
    have h2 := writeRaw_spec (s.writeRaw ['"']).2 cap (used + 1) (c :: rest) h1.2.1
      (by simp; omega)
    have h3 := writeRaw_spec ((s.writeRaw ['"']).2.writeRaw (c :: rest)).2 cap
      (used + 1 + (rest.length + 1)) ['"'] h2.2.1 (by simp; omega)
    simp only [Serializer.writeAsString, List.headD_cons]
    rw [if_pos hq]
    rw [if_neg (by simp [h1.1])]
    rw [if_neg (by simp [h2.1])]
    refine ⟨h3.1, ?_⟩
    rw [h3.2.2, h2.2.2, h1.2.2]
    simp [hq]

/-- Claim C10: when the serializer writes a String-typed value (and an
Ascii-typed one under convertAsciiToString, the default), only the first
byte of the span decides quoting: a span starting with a quote is written
verbatim with no quotes added at either end, any other span is wrapped in
quotes on both sides — regardless of what the span contains or ends with.
Stated over a fresh single-buffer serializer with room for the span plus
two quotes. -/
theorem C10_quoting_first_byte (c : Char) (rest : List Char) (cap : Nat)
    (hcap : rest.length + 3 ≤ cap) :
    ((serializerWithBuffer .Pretty cap).writeAsString (c :: rest)).1 = true ∧
    serializedBytes ((serializerWithBuffer .Pretty cap).writeAsString (c :: rest)).2 =
      (if c = '"' then c :: rest else '"' :: ((c :: rest) ++ ['"'])) ∧
    (serializerWithBuffer .Pretty cap).writeTyped .String (c :: rest) =
      (serializerWithBuffer .Pretty cap).writeAsString (c :: rest) ∧
    (serializerWithBuffer .Pretty cap).writeTyped .Ascii (c :: rest) =
      (serializerWithBuffer .Pretty cap).writeAsString (c :: rest) := by
  have hsb : SingleBuf (serializerWithBuffer .Pretty cap) cap 0 :=
    ⟨{ buffer := List.replicate cap ' ', size := cap, used := 0 }, rfl, rfl, by simp, rfl, rfl⟩
  have hempty : serializedBytes (serializerWithBuffer .Pretty cap) = [] := by
    simp [serializedBytes, serializerWithBuffer, Serializer.appendBuffer]
  have h := writeAsString_spec _ cap 0 c rest hsb (by omega)
  refine ⟨h.1, ?_, rfl, rfl⟩
  rw [h.2, hempty]
  simp

/-- Witness for C10_quoting_first_byte at the two-byte span hi with
capacity 8. -/
theorem C10_quoting_first_byte_witness :
    (['i'] : List Char).length + 3 ≤ 8 ∧
    ((serializerWithBuffer .Pretty 8).writeAsString ('h' :: ['i'])).1 = true ∧
    serializedBytes ((serializerWithBuffer .Pretty 8).writeAsString ('h' :: ['i'])).2 =
      ['"', 'h', 'i', '"'] := by
  have h := C10_quoting_first_byte 'h' ['i'] 8 (by decide)
  refine ⟨by decide, h.1, ?_⟩
  rw [h.2.1]
  decide

end JT
